/-
Verification of the core of `lambda-gorunner` (a bounded-concurrency
multi-host SSH command executor) against its natural-language specification.

The Go sources are shallowly embedded:
  * `ssh.ClientConfig` (the slice built by `sshAuthSetup`) becomes
    `ClientConfig`: only the fields the core logic reads (`User`, `Timeout`)
    are kept; the authentication method is shared and opaque.
  * The network/SSH backend (`ssh.Dial`, `client.NewSession`,
    `session.Start`, `session.Wait` and the captured buffers) is a
    deterministic stub `SshBackend`; this mirrors the spec's "deterministic
    stub backend" and lets connection and command outcomes be pure data.
  * Go maps (`factsToCollect`, `commands`, `facts`, `row.Facts`) become
    association lists; the (nondeterministic) iteration order of a Go map
    is the order of the list, so theorems about order independence quantify
    over permutations of the list.
  * `GetFacts` returns `(map[string]string, error)` where the map may be
    `nil`; this becomes `Option (List (String × String))`, with `none`
    embedding Go's `nil` map (which `formatResult` distinguishes from an
    empty one).
  * Errors built with `errors.Errorf` / `errors.Wrap` become the inductive
    `GoErr`, one constructor per `return`-site, carrying exactly the data
    that the Go code formats into the error message.
-/
import Mathlib

namespace GoRunner

deriving instance DecidableEq for Except

/-- Association-list lookup, embedding Go's `m[k]` read on a
`map[string]string` (`none` ↔ the comma-ok form reports absence). -/
def lookupFact (k : String) : List (String × String) → Option String
  | [] => none
  | (k', v) :: rest => if k' = k then some v else lookupFact k rest

/-- The part of `ssh.ClientConfig` that `GetFacts`/`sshAuthSetup` read:
the login user and the per-attempt dial timeout (seconds). The auth method
is shared by all configs and lives in the backend stub. -/
structure ClientConfig where
  user : String
  timeout : Nat
deriving DecidableEq, Repr

/-- Result of one remote command, as observed through `session.Wait` and
the captured `stdout`/`stderr` buffers: `ok` is `session.Wait() == nil`. -/
structure CmdResult where
  ok : Bool
  stdout : String
  stderr : String
deriving DecidableEq, Repr

/-- Deterministic stub of the SSH/network layer:
  * `dial auth host`    — whether `ssh.Dial("tcp", host+":22", auth)` succeeds;
  * `newSession n`      — whether the `n`-th `client.NewSession()` call
                          (0-indexed) on the negotiated connection succeeds
                          (models remote resource exhaustion by count);
  * `startOk cmd`       — whether `session.Start(cmd)` succeeds;
  * `run cmd`           — the `Wait` outcome and captured output of `cmd`. -/
structure SshBackend where
  dial : ClientConfig → String → Bool
  newSession : Nat → Bool
  startOk : String → Bool
  run : String → CmdResult

/-- Every `error` value `GetFacts` can return, one constructor per
`return` site, carrying the data the Go code formats into the message:
  * `noHosts`            — `errors.Errorf("No hosts to get facts")`;
  * `cantConnect addrs`  — `errors.Errorf("Can't connect to host with
                           addresses: %v", hostAddrs)`;
  * `sessionAlloc c`     — `errors.Wrap(err, "Can't allocate session for "+conStr)`;
  * `startFail cmd c`    — `errors.Wrap(err, "Can't start command: '"+cmd+"' at "+conStr)`;
  * `aggregate c fs`     — the chain of `errors.Wrapf(combErr, "Failed to
                           collect '%s' fact: %s (@err %s)", name, …, stderr)`
                           around `errors.Errorf("can't collect all facts for %s",
                           conStr)`; `fs` lists the wrapped (label, stderr)
                           records in wrap order. -/
inductive GoErr where
  | noHosts : GoErr
  | cantConnect (hostAddrs : List String) : GoErr
  | sessionAlloc (conStr : String) : GoErr
  | startFail (cmd conStr : String) : GoErr
  | aggregate (conStr : String) (failures : List (String × String)) : GoErr
deriving DecidableEq, Repr

/-- True for the error kinds the spec's taxonomy calls `ConnectionError`
(negotiation failed; no connection was obtained). -/
def GoErr.isConnectionError : GoErr → Bool
  | .noHosts => true
  | .cantConnect _ => true
  | _ => false

/-! ## Connection negotiation (`GetFacts`, lines 190–209)

The Go inner loop `for _, host := range hostAddrs` dials `auth.User@host`
for each address until one succeeds; the outer loop
`for i := 0; i < len(auths) && conStr == ""; i++` advances to the next
credential only while no connection string has been set. Both functions
additionally return the list of `(user, host)` pairs actually dialed, in
order, so that claims about attempt counts and attempt order can be
stated. -/

/-- One credential against the address list: first success wins, returning
the connection string `user@host`; second component is the dial attempts
made, in order. -/
def dialAddrs (dial : ClientConfig → String → Bool) (auth : ClientConfig) :
    List String → Option String × List (String × String)
  | [] => (none, [])
  | host :: rest =>
    if dial auth host then
      (some (auth.user ++ "@" ++ host), [(auth.user, host)])
    else
      let r := dialAddrs dial auth rest
      (r.1, (auth.user, host) :: r.2)

/-- The credential-major nested loop: credentials in given order, and for
each credential all addresses in given order; stops at the first success. -/
def dialAuths (dial : ClientConfig → String → Bool) :
    List ClientConfig → List String → Option String × List (String × String)
  | [], _ => (none, [])
  | auth :: rest, hostAddrs =>
    let r := dialAddrs dial auth hostAddrs
    match r.1 with
    | some conStr => (some conStr, r.2)
    | none =>
      let r' := dialAuths dial rest hostAddrs
      (r'.1, r.2 ++ r'.2)

/-- Outcome of the negotiation phase of `GetFacts`: either the connection
string `user@host` of the first working pair, or the error returned, plus
the trace of dial attempts. -/
def negotiate (dial : ClientConfig → String → Bool) (hostAddrs : List String)
    (auths : List ClientConfig) : Except GoErr String × List (String × String) :=
  if hostAddrs.isEmpty then (.error .noHosts, [])
  else
    let r := dialAuths dial auths hostAddrs
    match r.1 with
    | some conStr => (.ok conStr, r.2)
    | none => (.error (.cantConnect hostAddrs), r.2)

/-- The full credential-major product order of (credential, address) pairs. -/
def allPairs (auths : List ClientConfig) (hostAddrs : List String) :
    List (ClientConfig × String) :=
  auths.flatMap fun a => hostAddrs.map fun h => (a, h)

/-! ## Command batch execution (`GetFacts`, lines 222–268)

The first loop (`for name, cmd := range factsToCollect`) allocates one
session per command (`client.NewSession()`, counted from 0), registers it in
the `commands` map and starts the command; a `NewSession` or `Start` failure
returns immediately with `nil` facts. The second loop
(`for name, c := range commands`) waits on each session: a `Wait` error is
wrapped into the accumulating error, a success stores the trimmed stdout
under the label. `factsToCollect` is a Go map, so the embedding takes it as
the association list in iteration order; theorems about Go-map order
independence quantify over permutations of this list. -/

/-- Session allocation and start phase. `n` is the index of the next
`NewSession` call; on success the command list is returned unchanged
(the `commands` map holds exactly the input label/command pairs). -/
def allocSessions (b : SshBackend) (conStr : String) :
    List (String × String) → Nat → Except GoErr (List (String × String))
  | [], _ => .ok []
  | (name, cmd) :: rest, n =>
    if b.newSession n then
      if b.startOk cmd then
        match allocSessions b conStr rest (n + 1) with
        | .ok cs => .ok ((name, cmd) :: cs)
        | .error e => .error e
      else .error (.startFail cmd conStr)
    else .error (.sessionAlloc conStr)

/-- Wait phase: first component is the `facts` map (trimmed stdout of each
command whose `Wait` succeeded), second the (label, stderr) failure records
wrapped into the aggregate error, both in iteration order. -/
def waitPhase (b : SshBackend) :
    List (String × String) → List (String × String) × List (String × String)
  | [] => ([], [])
  | (name, cmd) :: rest =>
    let r := b.run cmd
    let w := waitPhase b rest
    if r.ok then ((name, r.stdout.trim) :: w.1, w.2)
    else (w.1, (name, r.stderr) :: w.2)

/-- Result of `GetFacts`: the Go `(map[string]string, error)` pair — with
`none` embedding a `nil` map — plus the trace of dial attempts and whether
the negotiated connection was closed (the `defer client.Close()` placed
right after a successful negotiation). -/
structure GetFactsResult where
  facts : Option (List (String × String))
  err : Option GoErr
  attempts : List (String × String)
  connClosed : Bool
deriving DecidableEq, Repr

/-- `GetFacts(hostAddrs, factsToCollect, auths)`: empty-address check,
negotiation, session allocation/start, wait/collect, and the final
`if !hasErrors { combErr = nil }`. -/
def GetFacts (b : SshBackend) (hostAddrs : List String)
    (factsToCollect : List (String × String)) (auths : List ClientConfig) :
    GetFactsResult :=
  let ng := negotiate b.dial hostAddrs auths
  match ng.1 with
  | .error e => ⟨none, some e, ng.2, false⟩
  | .ok conStr =>
    match allocSessions b conStr factsToCollect 0 with
    | .error e => ⟨none, some e, ng.2, true⟩
    | .ok cmds =>
      let w := waitPhase b cmds
      if w.2.isEmpty then ⟨some w.1, none, ng.2, true⟩
      else ⟨some w.1, some (.aggregate conStr w.2), ng.2, true⟩

/-! ## Instances, result rows and the orchestrator (`Worker`, `processFact`,
`formatResult`) -/

/-- The fields of `ec2.Instance` that the core reads: `InstanceId`, the
`Tags` list (key/value) and the two IP pointers (a `nil` pointer or an
empty string both yield no address, per `getInstances`). -/
structure Ec2Instance where
  instanceId : Option String
  tags : List (String × String)
  privateIpAddress : Option String
  publicIpAddress : Option String
deriving DecidableEq, Repr

/-- `InstanceInfo`: AWS description, candidate addresses, and the mutable
outcome slot (`facts`, `err`) written once by `processFact`. -/
structure InstanceInfo where
  description : Ec2Instance
  addrs : List String
  facts : Option (List (String × String))
  err : Option GoErr
deriving DecidableEq, Repr

/-- `ResRow`: one line of the final result table. -/
structure ResRow where
  instanceId : String
  name : String
  ips : List String
  facts : List (String × String)
deriving DecidableEq, Repr

/-- Tag scan of `formatResult`: the first tag with key `"Name"` supplies
the display name; `row.Name` stays `""` otherwise. -/
def findNameTag : List (String × String) → String
  | [] => ""
  | (k, v) :: rest => if k = "Name" then v else findNameTag rest

/-- One iteration of `formatResult`'s row loop. The fact columns are
filled only under `if inst.facts != nil`: for a `nil` facts map the row's
`Facts` stays the freshly made empty map. Otherwise every label of
`factsToCollect` is set to the collected value, or to `unkRes = ""`. -/
def formatRow (factsToCollect : List (String × String)) (inst : InstanceInfo) :
    ResRow where
  instanceId := inst.description.instanceId.getD ""
  name := findNameTag inst.description.tags
  ips := inst.addrs
  facts :=
    match inst.facts with
    | none => []
    | some fs => factsToCollect.map fun kv => (kv.1, (lookupFact kv.1 fs).getD "")

/-- `formatResult`: one row per instance, in slice order. -/
def formatResult (instances : List InstanceInfo)
    (factsToCollect : List (String × String)) : List ResRow :=
  instances.map (formatRow factsToCollect)

/-- `processFact` without the limiter bookkeeping: run `GetFacts` on the
instance's own address list and store facts and error in its outcome slot.
(The limiter itself is modelled by `GateStep` below.) -/
def processFact (b : SshBackend) (factsToCollect : List (String × String))
    (auths : List ClientConfig) (inst : InstanceInfo) : InstanceInfo :=
  let r := GetFacts b inst.addrs factsToCollect auths
  { inst with facts := r.facts, err := r.err }

/-- Completion-order model of the fan-out/join in `Worker`: the goroutines
finish in some arbitrary order `sched`; each completion writes the outcome
of its own target (a pure function of that target, since a target is owned
exclusively by its goroutine) into the slot map. -/
def runScheduled {α : Type} {ι : Type} [DecidableEq ι] (step : α → α)
    (sched : List ι) (f : ι → α) : ι → α :=
  sched.foldl (fun cur i => Function.update cur i (step (cur i))) f

/-- `Worker` after the external inputs are in hand: dispatch `processFact`
for every instance, wait for all (any completion order `sched`), then
`formatResult` over the original instance slice. -/
def Worker (b : SshBackend) (factsToCollect : List (String × String))
    (auths : List ClientConfig) (instances : List InstanceInfo)
    (sched : List (Fin instances.length)) : List ResRow :=
  formatResult
    (List.ofFn (runScheduled (processFact b factsToCollect auths) sched instances.get))
    factsToCollect

/-! ## The admission gate (`Worker` lines 146–156, `processFact` lines 168–179)

`limiter := make(chan int, maxSessions)` is a buffered channel used as a
counting semaphore: `limiter <- jobID` (before any work) completes only
while fewer than `maxSessions` values are buffered, i.e. while fewer than
`maxSessions` goroutines are between their send and their receive;
`<-limiter` (after the work, on success and failure alike) removes one
value. A goroutine is *active* exactly between its send and its receive,
so the buffer length equals the number of active goroutines. The model is
a transition system over the per-target phase. -/

/-- Phase of one target's goroutine: not yet admitted by the limiter,
admitted and working (`GetFacts` running), or finished. -/
inductive Phase where
  | waiting : Phase
  | active : Phase
  | finished : Phase
deriving DecidableEq, Repr

/-- Number of goroutines currently holding a limiter slot
(= `len(limiter)` in the Go program). -/
def activeCount (n : Nat) (s : Fin n → Phase) : Nat :=
  (Finset.univ.filter fun i => s i = Phase.active).card

/-- One scheduler step: `acquire` is a goroutine completing
`limiter <- jobID` (possible only while the buffer is not full), `release`
is a goroutine completing `<-limiter` after its pipeline finished. -/
inductive GateStep (cap : Nat) {n : Nat} : (Fin n → Phase) → (Fin n → Phase) → Prop where
  | acquire (s : Fin n → Phase) (i : Fin n) :
      s i = Phase.waiting → activeCount n s < cap →
      GateStep cap s (Function.update s i Phase.active)
  | release (s : Fin n → Phase) (i : Fin n) :
      s i = Phase.active →
      GateStep cap s (Function.update s i Phase.finished)

/-- States reachable from the initial state (all goroutines dispatched,
none admitted yet) by any interleaving of gate steps. -/
def GateReachable (cap : Nat) {n : Nat} (s : Fin n → Phase) : Prop :=
  Relation.ReflTransGen (GateStep cap) (fun _ => Phase.waiting) s

/-! ## Configuration scalars (`getEnv` and `MAX_SESSIONS`) -/

/-- `getEnv(name, fallback)` from the handler file: the environment value
when the variable exists, the fallback otherwise. The environment is
passed in as `Option String`. -/
def getEnv (value : Option String) (fallback : String) : String :=
  match value with
  | some v => v
  | none => fallback

/-- Digit run of Go's `strconv.Atoi`: accumulate base-10 digits, reject
any non-digit character. -/
def parseDigits : Nat → List Char → Option Nat
  | acc, [] => some acc
  | acc, c :: rest =>
    if c.isDigit then parseDigits (acc * 10 + (c.toNat - 48)) rest else none

/-- `strconv.Atoi(s)` as used by `Worker` (its error is discarded, so only
the returned value matters): an optional sign followed by at least one
digit parses to that integer; every other string yields 0 (Go returns
`0, ErrSyntax`). The int64 overflow clamp of `ParseInt` is not modelled —
the claims only involve small values. -/
def goAtoi (s : String) : Int :=
  match s.data with
  | [] => 0
  | c :: rest =>
    let ds := if c = '-' ∨ c = '+' then rest else c :: rest
    if ds.isEmpty then 0
    else
      match parseDigits 0 ds with
      | none => 0
      | some n => if c = '-' then -(n : Int) else (n : Int)

/-- `defaultMaxSessions = "10"`. -/
def defaultMaxSessions : String := "10"

/-- `maxSessions, _ := strconv.Atoi(getEnv("MAX_SESSIONS", defaultMaxSessions))`
— the capacity handed to `make(chan int, maxSessions)`. -/
def effectiveMaxSessions (env : Option String) : Int :=
  goAtoi (getEnv env defaultMaxSessions)

/-! ## Concrete data for witnesses and counterexamples -/

/-- Two credentials in `defaultUsers` order. -/
def demoAuths : List ClientConfig := [⟨"centos", 5⟩, ⟨"ec2-user", 5⟩]

/-- Deterministic stub backend: only `ec2-user@10.0.0.1` is reachable;
sessions and starts always succeed; `uname -rs` succeeds with a newline to
trim, `hostname` fails with a captured stderr, everything else succeeds
with empty output. -/
def demoBackend : SshBackend where
  dial := fun a h => a.user == "ec2-user" && h == "10.0.0.1"
  newSession := fun _ => true
  startOk := fun _ => true
  run := fun cmd =>
    if cmd == "uname -rs" then ⟨true, "Linux 4.14\n", ""⟩
    else if cmd == "hostname" then ⟨false, "", "exit 1"⟩
    else ⟨true, "", ""⟩

/-- Backend on which every dial fails. -/
def deadBackend : SshBackend where
  dial := fun _ _ => false
  newSession := fun _ => true
  startOk := fun _ => true
  run := fun _ => ⟨true, "", ""⟩

/-- Backend reachable by the first credential whose second `NewSession`
call fails (remote resource exhaustion). -/
def exhaustedBackend : SshBackend where
  dial := fun _ _ => true
  newSession := fun n => n == 0
  startOk := fun _ => true
  run := fun _ => ⟨true, "ok", ""⟩

/-- A demo instance with one address. -/
def demoInstance : InstanceInfo where
  description := ⟨some "i-1", [("Name", "web-1")], some "10.0.0.1", none⟩
  addrs := ["10.0.0.1"]
  facts := none
  err := none

/-!
# Theorems

First a small kit about `lookupFact` (Go map reads over association
lists), then per-component lemmas, then one theorem per claim.
-/

theorem lookupFact_isSome_iff (k : String) (l : List (String × String)) :
    (lookupFact k l).isSome = true ↔ k ∈ l.map Prod.fst := by
  induction l with
  | nil => simp [lookupFact]
  | cons kv rest ih =>
    obtain ⟨k', v⟩ := kv
    by_cases hk : k' = k
    · subst hk
      simp [lookupFact]
    · have hk' : ¬k = k' := fun h => hk h.symm
      simp [lookupFact, hk, ih, hk']

theorem lookupFact_eq_none_of_not_mem {k : String} {l : List (String × String)}
    (h : k ∉ l.map Prod.fst) : lookupFact k l = none := by
  cases hl : lookupFact k l with
  | none => rfl
  | some v =>
    exact absurd ((lookupFact_isSome_iff k l).mp (by simp [hl])) h

theorem mem_of_lookupFact_eq_some {k v : String} {l : List (String × String)}
    (h : lookupFact k l = some v) : (k, v) ∈ l := by
  induction l with
  | nil => simp [lookupFact] at h
  | cons kv rest ih =>
    obtain ⟨k', v'⟩ := kv
    by_cases hk : k' = k
    · subst hk
      simp [lookupFact] at h
      simp [h]
    · simp [lookupFact, hk] at h
      simp [ih h]

theorem lookupFact_of_mem {k v : String} {l : List (String × String)}
    (hnodup : (l.map Prod.fst).Nodup) (hmem : (k, v) ∈ l) :
    lookupFact k l = some v := by
  induction l with
  | nil => simp at hmem
  | cons kv rest ih =>
    obtain ⟨k', v'⟩ := kv
    rw [List.map_cons, List.nodup_cons] at hnodup
    rcases List.mem_cons.mp hmem with heq | hrest
    · injection heq with h1 h2
      subst h1
      subst h2
      simp [lookupFact]
    · have hk : k' ≠ k := by
        intro habs
        subst habs
        exact hnodup.1 (by simpa using List.mem_map_of_mem Prod.fst hrest)
      simp [lookupFact, hk, ih hnodup.2 hrest]

theorem lookupFact_perm {l₁ l₂ : List (String × String)} (hperm : l₁.Perm l₂)
    (hnodup : (l₁.map Prod.fst).Nodup) (k : String) :
    lookupFact k l₁ = lookupFact k l₂ := by
  have hnodup₂ : (l₂.map Prod.fst).Nodup := ((hperm.map Prod.fst).nodup_iff).mp hnodup
  cases hl : lookupFact k l₁ with
  | some v =>
    exact (lookupFact_of_mem hnodup₂ (hperm.mem_iff.mp (mem_of_lookupFact_eq_some hl))).symm
  | none =>
    have : k ∉ l₂.map Prod.fst := by
      intro habs
      have : k ∈ l₁.map Prod.fst := ((hperm.map Prod.fst).mem_iff).mpr habs
      have := (lookupFact_isSome_iff k l₁).mpr this
      simp [hl] at this
    exact (lookupFact_eq_none_of_not_mem this).symm

/-- Lookup in a list whose values are a function of the key alone
(the shape of `formatRow`'s fact columns). -/
theorem lookupFact_map_keyed (g : String → String) (l : List (String × String))
    (k : String) :
    lookupFact k (l.map fun kv => (kv.1, g kv.1)) =
      if k ∈ l.map Prod.fst then some (g k) else none := by
  induction l with
  | nil => simp [lookupFact]
  | cons kv rest ih =>
    obtain ⟨k', v'⟩ := kv
    by_cases hk : k' = k
    · subst hk
      simp [lookupFact]
    · have hk' : ¬k = k' := fun h => hk h.symm
      by_cases hm : k ∈ List.map Prod.fst rest
      · simp [lookupFact, hk, ih, hk', hm]
      · simp [lookupFact, hk, ih, hk', hm]

/-! ## Negotiation lemmas -/

theorem dialAddrs_all_fail (dial : ClientConfig → String → Bool)
    (auth : ClientConfig) (addrs : List String)
    (h : ∀ x ∈ addrs, dial auth x = false) :
    dialAddrs dial auth addrs = (none, addrs.map fun x => (auth.user, x)) := by
  induction addrs with
  | nil => rfl
  | cons a rest ih =>
    have ha : dial auth a = false := h a (by simp)
    simp only [dialAddrs, ha, Bool.false_eq_true, if_false, List.map_cons]
    rw [ih fun x hx => h x (by simp [hx])]

theorem dialAddrs_first_success (dial : ClientConfig → String → Bool)
    (auth : ClientConfig) (pre : List String) (h : String) (post : List String)
    (hpre : ∀ x ∈ pre, dial auth x = false) (hh : dial auth h = true) :
    dialAddrs dial auth (pre ++ h :: post) =
      (some (auth.user ++ "@" ++ h), (pre ++ [h]).map fun x => (auth.user, x)) := by
  induction pre with
  | nil => simp [dialAddrs, hh]
  | cons a rest ih =>
    have ha : dial auth a = false := hpre a (by simp)
    simp only [List.cons_append, dialAddrs, ha, Bool.false_eq_true, if_false,
      List.append_eq]
    rw [ih fun x hx => hpre x (by simp [hx])]
    simp

theorem dialAuths_all_fail (dial : ClientConfig → String → Bool)
    (auths : List ClientConfig) (addrs : List String)
    (h : ∀ a ∈ auths, ∀ x ∈ addrs, dial a x = false) :
    dialAuths dial auths addrs =
      (none, (allPairs auths addrs).map fun p => (p.1.user, p.2)) := by
  induction auths with
  | nil => simp [dialAuths, allPairs]
  | cons a rest ih =>
    simp only [dialAuths]
    rw [dialAddrs_all_fail dial a addrs (h a (by simp))]
    rw [ih fun a' ha' => h a' (by simp [ha'])]
    simp [allPairs]

theorem dialAuths_first_success (dial : ClientConfig → String → Bool)
    (preA : List ClientConfig) (a : ClientConfig) (postA : List ClientConfig)
    (preH : List String) (h : String) (postH : List String)
    (hpreA : ∀ a' ∈ preA, ∀ x ∈ preH ++ h :: postH, dial a' x = false)
    (hpreH : ∀ x ∈ preH, dial a x = false) (hh : dial a h = true) :
    dialAuths dial (preA ++ a :: postA) (preH ++ h :: postH) =
      (some (a.user ++ "@" ++ h),
        ((allPairs preA (preH ++ h :: postH)).map fun p => (p.1.user, p.2)) ++
          ((preH ++ [h]).map fun x => (a.user, x))) := by
  induction preA with
  | nil =>
    simp only [List.nil_append, dialAuths]
    rw [dialAddrs_first_success dial a preH h postH hpreH hh]
    simp [allPairs]
  | cons a' rest ih =>
    simp only [List.cons_append, dialAuths]
    rw [dialAddrs_all_fail dial a' (preH ++ h :: postH) (hpreA a' (by simp))]
    simp only [List.append_eq]
    rw [ih fun a'' ha'' => hpreA a'' (by simp [ha''])]
    simp [allPairs, Function.comp_def]

theorem allPairs_append (l₁ l₂ : List ClientConfig) (addrs : List String) :
    allPairs (l₁ ++ l₂) addrs = allPairs l₁ addrs ++ allPairs l₂ addrs := by
  simp [allPairs]

theorem allPairs_length (auths : List ClientConfig) (addrs : List String) :
    (allPairs auths addrs).length = auths.length * addrs.length := by
  induction auths with
  | nil => simp [allPairs]
  | cons a rest ih =>
    simp only [allPairs, List.flatMap_cons, List.length_append, List.length_map]
    simp only [allPairs] at ih
    rw [ih]
    simp only [List.length_cons]
    ring

/-- C2 helper: the first `k` pairs of the credential-major product order,
where the `k`-th pair is `(a, h)` preceded by `preA` fully failed
credentials and `preH` failed addresses under `a`. -/
theorem allPairs_take_first_success (preA : List ClientConfig) (a : ClientConfig)
    (postA : List ClientConfig) (preH : List String) (h : String)
    (postH : List String) :
    (allPairs (preA ++ a :: postA) (preH ++ h :: postH)).take
        (preA.length * (preH ++ h :: postH).length + preH.length + 1) =
      allPairs preA (preH ++ h :: postH) ++ ((preH ++ [h]).map fun x => (a, x)) := by
  rw [allPairs_append]
  rw [Nat.add_assoc, ← allPairs_length preA (preH ++ h :: postH)]
  rw [List.take_append]
  congr 1
  have hsplit : allPairs [a] (preH ++ h :: postH) =
      ((preH ++ h :: postH).map fun x => (a, x)) := by
    simp [allPairs]
  have : allPairs (a :: postA) (preH ++ h :: postH) =
      ((preH ++ h :: postH).map fun x => (a, x)) ++ allPairs postA (preH ++ h :: postH) := by
    simp [allPairs]
  rw [this]
  rw [List.take_append_of_le_length (by simp)]
  rw [← List.map_take]
  congr 1
  rw [List.take_append]
  simp

/-- C2: for nonempty credential and address lists where the k-th
(credential, address) pair in credential-major order is the first
reachable one (here `k = preA.length * #addresses + preH.length + 1`,
with `preA` the fully-unreachable earlier credentials and `preH` the
unreachable earlier addresses under the succeeding credential `a`),
negotiation returns the identity string `user@address` of that pair, its
dial attempts are exactly the first `k` pairs of the credential-major
order, and exactly `k` attempts are made. -/
theorem negotiate_credential_major (b : SshBackend)
    (preA postA : List ClientConfig) (a : ClientConfig)
    (preH postH : List String) (h : String)
    (hpreA : ∀ a' ∈ preA, ∀ x ∈ preH ++ h :: postH, b.dial a' x = false)
    (hpreH : ∀ x ∈ preH, b.dial a x = false)
    (hh : b.dial a h = true) :
    (negotiate b.dial (preH ++ h :: postH) (preA ++ a :: postA)).1 =
        .ok (a.user ++ "@" ++ h) ∧
    (negotiate b.dial (preH ++ h :: postH) (preA ++ a :: postA)).2 =
      ((allPairs (preA ++ a :: postA) (preH ++ h :: postH)).take
          (preA.length * (preH ++ h :: postH).length + preH.length + 1)).map
        (fun p => (p.1.user, p.2)) ∧
    (negotiate b.dial (preH ++ h :: postH) (preA ++ a :: postA)).2.length =
      preA.length * (preH ++ h :: postH).length + preH.length + 1 := by
  have hne : (preH ++ h :: postH).isEmpty = false := by
    cases preH <;> rfl
  have key := dialAuths_first_success b.dial preA a postA preH h postH hpreA hpreH hh
  refine ⟨?_, ?_, ?_⟩
  · simp [negotiate, hne, key]
  · simp only [negotiate, hne, Bool.false_eq_true, if_false, key]
    rw [allPairs_take_first_success]
    simp [Function.comp_def]
  · simp only [negotiate, hne, Bool.false_eq_true, if_false, key]
    rw [List.length_append, List.length_map, List.length_map, allPairs_length]
    simp only [List.length_append, List.length_singleton]
    ring

theorem negotiate_credential_major_witness :
    (∀ a' ∈ [(⟨"centos", 5⟩ : ClientConfig)], ∀ x ∈ ([] ++ "10.0.0.1" :: []),
        demoBackend.dial a' x = false) ∧
    demoBackend.dial ⟨"ec2-user", 5⟩ "10.0.0.1" = true ∧
    (negotiate demoBackend.dial ([] ++ "10.0.0.1" :: [])
          ([⟨"centos", 5⟩] ++ ⟨"ec2-user", 5⟩ :: [])).2.length =
      [(⟨"centos", 5⟩ : ClientConfig)].length * ([] ++ "10.0.0.1" :: []).length +
        ([] : List String).length + 1 :=
  ⟨by decide, by decide,
    (negotiate_credential_major demoBackend [⟨"centos", 5⟩] [] ⟨"ec2-user", 5⟩ [] []
      "10.0.0.1" (by decide) (by decide) (by decide)).2.2⟩

/-- C5 counterexample: two inputs that attempt different (credential,
address) pair sets — one credential vs two — produce the *same*
`ConnectionError` value, so the returned error does not record the
attempted pairs; the code formats only the address list into it
(`"Can't connect to host with addresses: %v", hostAddrs`), while the
per-pair failures are only logged. -/
theorem connectionError_not_record_pairs :
    (negotiate deadBackend.dial ["10.0.0.1"] demoAuths).1 =
        (negotiate deadBackend.dial ["10.0.0.1"] [⟨"centos", 5⟩]).1 ∧
    (negotiate deadBackend.dial ["10.0.0.1"] demoAuths).2 ≠
        (negotiate deadBackend.dial ["10.0.0.1"] [⟨"centos", 5⟩]).2 ∧
    (negotiate deadBackend.dial ["10.0.0.1"] demoAuths).1 =
      .error (.cantConnect ["10.0.0.1"]) := by
  decide

/-- C5 (amended): when every (credential, address) combination fails,
negotiation attempts all pairs in credential-major order and returns a
`ConnectionError` recording the target's address list (not the attempted
(credential, address) pairs). -/
theorem negotiate_all_fail_error (b : SshBackend)
    (hostAddrs : List String) (auths : List ClientConfig)
    (hne : hostAddrs ≠ [])
    (hfail : ∀ a ∈ auths, ∀ x ∈ hostAddrs, b.dial a x = false) :
    (negotiate b.dial hostAddrs auths).1 = .error (.cantConnect hostAddrs) ∧
    (negotiate b.dial hostAddrs auths).2 =
      (allPairs auths hostAddrs).map fun p => (p.1.user, p.2) := by
  have hne' : hostAddrs.isEmpty = false := by
    cases hostAddrs with
    | nil => exact absurd rfl hne
    | cons _ _ => rfl
  have key := dialAuths_all_fail b.dial auths hostAddrs hfail
  exact ⟨by simp [negotiate, hne', key], by simp [negotiate, hne', key]⟩

theorem negotiate_all_fail_error_witness :
    (["10.0.0.1"] : List String) ≠ [] ∧
    (∀ a ∈ demoAuths, ∀ x ∈ ["10.0.0.2"], demoBackend.dial a x = false) ∧
    (negotiate demoBackend.dial ["10.0.0.2"] demoAuths).1 =
      .error (.cantConnect ["10.0.0.2"]) :=
  ⟨by decide, by decide,
    (negotiate_all_fail_error demoBackend ["10.0.0.2"] demoAuths (by decide)
      (by decide)).1⟩

/-- C6: an empty address list, and likewise an empty credential list,
makes `GetFacts` fail immediately with a `ConnectionError`-class error,
zero dial attempts made and a nil facts map. -/
theorem getFacts_empty_inputs (b : SshBackend) (hostAddrs : List String)
    (fc : List (String × String)) (auths : List ClientConfig)
    (hemp : hostAddrs = [] ∨ auths = []) :
    (∃ e, (GetFacts b hostAddrs fc auths).err = some e ∧
        e.isConnectionError = true) ∧
    (GetFacts b hostAddrs fc auths).attempts = [] ∧
    (GetFacts b hostAddrs fc auths).facts = none := by
  rcases hemp with he | he
  · subst he
    exact ⟨⟨.noHosts, rfl, rfl⟩, rfl, rfl⟩
  · subst he
    cases hostAddrs with
    | nil => exact ⟨⟨.noHosts, rfl, rfl⟩, rfl, rfl⟩
    | cons x rest =>
      exact ⟨⟨.cantConnect (x :: rest), rfl, rfl⟩, rfl, rfl⟩

theorem getFacts_empty_inputs_witness :
    (∃ e, (GetFacts demoBackend [] [("kernel", "uname -rs")] demoAuths).err = some e ∧
        e.isConnectionError = true) ∧
    (GetFacts demoBackend [] [("kernel", "uname -rs")] demoAuths).attempts = [] ∧
    (GetFacts demoBackend [] [("kernel", "uname -rs")] demoAuths).facts = none :=
  getFacts_empty_inputs demoBackend [] [("kernel", "uname -rs")] demoAuths (Or.inl rfl)

/-! ## `MAX_SESSIONS` parsing (C9) -/

theorem char_digit_bounds (c : Char) (h : c.isDigit = true) :
    48 ≤ c.toNat ∧ c.toNat ≤ 57 := by
  unfold Char.isDigit at h
  simp [decide_eq_true_eq] at h
  unfold Char.toNat
  exact ⟨h.1, h.2⟩

theorem char_ne_zero_toNat (c : Char) (h : c ≠ '0') : c.toNat ≠ 48 := by
  intro habs
  exact h (Char.ext (UInt32.ext habs))

theorem parseDigits_pos (l : List Char) (acc : Nat)
    (hd : ∀ c ∈ l, c.isDigit = true) :
    ∃ n, parseDigits acc l = some n ∧ acc ≤ n ∧ ((∃ c ∈ l, c ≠ '0') → 0 < n) := by
  induction l generalizing acc with
  | nil => exact ⟨acc, rfl, le_refl acc, by simp⟩
  | cons c rest ih =>
    have hc : c.isDigit = true := hd c (by simp)
    obtain ⟨n, heq, hle, hpos⟩ :=
      ih (acc * 10 + (c.toNat - 48)) fun c' h' => hd c' (by simp [h'])
    refine ⟨n, by simp [parseDigits, hc, heq], by omega, ?_⟩
    rintro ⟨c', hc', hnz⟩
    rcases List.mem_cons.mp hc' with rfl | hmem
    · have hb := char_digit_bounds c' hc
      have hn48 := char_ne_zero_toNat c' hnz
      omega
    · exact hpos ⟨c', hmem, hnz⟩

theorem goAtoi_digits_pos (s : String) (hne : s.data ≠ [])
    (hd : ∀ c ∈ s.data, c.isDigit = true) (hnz : ∃ c ∈ s.data, c ≠ '0') :
    0 < goAtoi s := by
  cases hs : s.data with
  | nil => exact absurd hs hne
  | cons c rest =>
    rw [hs] at hd hnz
    have hc : c.isDigit = true := hd c (by simp)
    have hcb := char_digit_bounds c hc
    have hcm : ¬(c = '-' ∨ c = '+') := by
      rintro (rfl | rfl)
      · exact absurd hcb.1 (by decide)
      · exact absurd hcb.1 (by decide)
    have hcd : c ≠ '-' := fun habs => hcm (Or.inl habs)
    obtain ⟨n, heq, -, hpos⟩ := parseDigits_pos (c :: rest) 0 hd
    have hn : 0 < n := hpos hnz
    unfold goAtoi
    rw [hs]
    simp only [if_neg hcm, List.isEmpty_cons, Bool.false_eq_true, if_false, heq,
      if_neg hcd]
    exact_mod_cast hn

/-- C9 counterexample: `MAX_SESSIONS` specified as `"0"` is a
configuration, yet the effective channel capacity is 0 — not a positive
integer (`strconv.Atoi`'s error is discarded and no positivity check is
made before `make(chan int, maxSessions)`). -/
theorem maxSessions_zero_counterexample :
    effectiveMaxSessions (some "0") = 0 ∧
    ¬(0 < effectiveMaxSessions (some "0")) := by
  decide

/-- C9 (amended): the effective capacity is the default 10 when
`MAX_SESSIONS` is unspecified, and the (positive) configured value when
the setting is a nonzero decimal digit string; but nothing forces other
specified strings to yield a positive capacity — the parse result is used
unchecked. -/
theorem effectiveMaxSessions_amended :
    effectiveMaxSessions none = 10 ∧
    ∀ s : String, s.data ≠ [] → (∀ c ∈ s.data, c.isDigit = true) →
      (∃ c ∈ s.data, c ≠ '0') → 0 < effectiveMaxSessions (some s) := by
  exact ⟨by decide, fun s h1 h2 h3 => goAtoi_digits_pos s h1 h2 h3⟩

theorem effectiveMaxSessions_amended_witness :
    0 < effectiveMaxSessions (some "25") :=
  effectiveMaxSessions_amended.2 "25" (by decide) (by decide) (by decide)

/-! ## Command batch lemmas -/

theorem allocSessions_ok (b : SshBackend) (conStr : String)
    (l : List (String × String)) (n : Nat)
    (hs : ∀ i < l.length, b.newSession (n + i) = true)
    (hst : ∀ kv ∈ l, b.startOk kv.2 = true) :
    allocSessions b conStr l n = .ok l := by
  induction l generalizing n with
  | nil => rfl
  | cons kv rest ih =>
    obtain ⟨name, cmd⟩ := kv
    have h0 : b.newSession n = true := by simpa using hs 0 (by simp)
    have hstart : b.startOk cmd = true := hst (name, cmd) (by simp)
    have hrest : allocSessions b conStr rest (n + 1) = .ok rest := by
      refine ih (n + 1) (fun i hi => ?_) (fun kv h => hst kv (by simp [h]))
      have h' := hs (i + 1) (by simp; omega)
      have harith : n + (i + 1) = n + 1 + i := by omega
      rwa [harith] at h'
    simp [allocSessions, h0, hstart, hrest]

theorem allocSessions_newSession_fail (b : SshBackend) (conStr : String)
    (pre : List (String × String)) (kv : String × String)
    (post : List (String × String)) (n : Nat)
    (hs : ∀ i < pre.length, b.newSession (n + i) = true)
    (hst : ∀ p ∈ pre, b.startOk p.2 = true)
    (hfail : b.newSession (n + pre.length) = false) :
    allocSessions b conStr (pre ++ kv :: post) n = .error (.sessionAlloc conStr) := by
  induction pre generalizing n with
  | nil =>
    obtain ⟨name, cmd⟩ := kv
    have h0 : b.newSession n = false := by simpa using hfail
    simp [allocSessions, h0]
  | cons p rest ih =>
    obtain ⟨name, cmd⟩ := p
    have h0 : b.newSession n = true := by simpa using hs 0 (by simp)
    have hstart : b.startOk cmd = true := hst (name, cmd) (by simp)
    have hrest : allocSessions b conStr (rest ++ kv :: post) (n + 1) =
        .error (.sessionAlloc conStr) := by
      refine ih (n + 1) (fun i hi => ?_) (fun p h => hst p (by simp [h])) ?_
      · have h' := hs (i + 1) (by simp; omega)
        have harith : n + (i + 1) = n + 1 + i := by omega
        rwa [harith] at h'
      · have harith : n + (rest.length + 1) = n + 1 + rest.length := by omega
        rw [List.length_cons] at hfail
        rwa [harith] at hfail
    simp [allocSessions, h0, hstart, hrest]

/-- Exact value of the wait phase: facts are the trimmed stdout of the
commands whose `Wait` succeeded, failures the (label, stderr) records of
the ones that did not, both in iteration order. -/
theorem waitPhase_eq (b : SshBackend) (l : List (String × String)) :
    waitPhase b l =
      ((l.filter fun kv => (b.run kv.2).ok).map
          fun kv => (kv.1, (b.run kv.2).stdout.trim),
        (l.filter fun kv => !(b.run kv.2).ok).map
          fun kv => (kv.1, (b.run kv.2).stderr)) := by
  induction l with
  | nil => rfl
  | cons kv rest ih =>
    obtain ⟨name, cmd⟩ := kv
    by_cases hok : (b.run cmd).ok = true
    · simp [waitPhase, ih, List.filter_cons, hok]
    · simp only [Bool.not_eq_true] at hok
      simp [waitPhase, ih, List.filter_cons, hok]

theorem waitPhase_facts_lookup (b : SshBackend) (l : List (String × String))
    (hnodup : (l.map Prod.fst).Nodup) (k : String) :
    lookupFact k (waitPhase b l).1 =
      (lookupFact k l).bind fun c =>
        if (b.run c).ok then some (b.run c).stdout.trim else none := by
  induction l with
  | nil => simp [waitPhase, lookupFact]
  | cons kv rest ih =>
    obtain ⟨k', c'⟩ := kv
    rw [List.map_cons, List.nodup_cons] at hnodup
    by_cases hk : k' = k
    · subst hk
      by_cases hok : (b.run c').ok = true
      · simp [waitPhase, hok, lookupFact]
      · have hnone : lookupFact k' (waitPhase b rest).1 = none := by
          rw [ih hnodup.2, lookupFact_eq_none_of_not_mem hnodup.1]
          rfl
        simp only [Bool.not_eq_true] at hok
        simp [waitPhase, hok, lookupFact, hnone]
    · by_cases hok : (b.run c').ok = true
      · simp [waitPhase, hok, lookupFact, hk, ih hnodup.2]
      · simp only [Bool.not_eq_true] at hok
        simp [waitPhase, hok, lookupFact, hk, ih hnodup.2]

/-- Both allocation-phase outcomes, by whether every `NewSession` and
`Start` call succeeds; on success the command list is returned unchanged. -/
theorem allocSessions_spec (b : SshBackend) (conStr : String)
    (l : List (String × String)) (n : Nat) :
    (((∀ i < l.length, b.newSession (n + i) = true) ∧
        (∀ kv ∈ l, b.startOk kv.2 = true)) ∧
      allocSessions b conStr l n = .ok l) ∨
    ((¬((∀ i < l.length, b.newSession (n + i) = true) ∧
        (∀ kv ∈ l, b.startOk kv.2 = true))) ∧
      ∃ e, allocSessions b conStr l n = .error e) := by
  induction l generalizing n with
  | nil => exact Or.inl ⟨⟨by simp, by simp⟩, rfl⟩
  | cons kv rest ih =>
    obtain ⟨name, cmd⟩ := kv
    by_cases h0 : b.newSession n = true
    · by_cases hstart : b.startOk cmd = true
      · rcases ih (n + 1) with ⟨⟨hA, hB⟩, heq⟩ | ⟨hneg, e, heq⟩
        · refine Or.inl ⟨⟨fun i hi => ?_, fun p hp => ?_⟩, ?_⟩
          · cases i with
            | zero => simpa using h0
            | succ j =>
              have := hA j (by simp at hi; omega)
              have harith : n + 1 + j = n + (j + 1) := by omega
              rwa [harith] at this
          · rcases List.mem_cons.mp hp with rfl | hm
            · exact hstart
            · exact hB p hm
          · simp [allocSessions, h0, hstart, heq]
        · refine Or.inr ⟨?_, e, by simp [allocSessions, h0, hstart, heq]⟩
          rintro ⟨hA, hB⟩
          refine hneg ⟨fun i hi => ?_, fun p hp => hB p (by simp [hp])⟩
          have := hA (i + 1) (by simp; omega)
          have harith : n + (i + 1) = n + 1 + i := by omega
          rwa [harith] at this
      · refine Or.inr ⟨?_, .startFail cmd conStr, by simp [allocSessions, h0, hstart]⟩
        rintro ⟨hA, hB⟩
        exact hstart (hB (name, cmd) (by simp))
    · refine Or.inr ⟨?_, .sessionAlloc conStr, by simp [allocSessions, h0]⟩
      rintro ⟨hA, hB⟩
      exact h0 (by simpa using hA 0 (by simp))

/-- `GetFacts` on the happy allocation path: facts are the wait-phase
map, the error is the aggregate error exactly when some command failed. -/
theorem getFacts_alloc_ok (b : SshBackend) (hostAddrs : List String)
    (fc : List (String × String)) (auths : List ClientConfig) (conStr : String)
    (hconn : (negotiate b.dial hostAddrs auths).1 = .ok conStr)
    (hs : ∀ i < fc.length, b.newSession i = true)
    (hst : ∀ kv ∈ fc, b.startOk kv.2 = true) :
    GetFacts b hostAddrs fc auths =
      ⟨some (waitPhase b fc).1,
        if (waitPhase b fc).2.isEmpty then none
        else some (.aggregate conStr (waitPhase b fc).2),
        (negotiate b.dial hostAddrs auths).2, true⟩ := by
  simp only [GetFacts]
  rw [hconn]
  dsimp only
  rw [allocSessions_ok b conStr fc 0 (fun i hi => by simpa using hs i hi) hst]
  dsimp only
  by_cases hemp : (waitPhase b fc).2.isEmpty = true
  · simp [hemp]
  · simp [hemp]

/-- C3: when the connection is up, every session allocates and starts, and
some commands fail while others succeed, `GetFacts` returns the facts map
holding the trimmed output of every succeeding label *alongside* a non-nil
aggregate error recording exactly the failing labels with their captured
stderr; and the target's final row carries the collected value for every
succeeding label and the default `""` for every failing label. -/
theorem getFacts_partial_failure (b : SshBackend) (hostAddrs : List String)
    (fc : List (String × String)) (auths : List ClientConfig) (conStr : String)
    (inst : InstanceInfo)
    (hconn : (negotiate b.dial hostAddrs auths).1 = .ok conStr)
    (hs : ∀ i < fc.length, b.newSession i = true)
    (hst : ∀ kv ∈ fc, b.startOk kv.2 = true)
    (hnodup : (fc.map Prod.fst).Nodup)
    (hfail : ∃ kv ∈ fc, (b.run kv.2).ok = false) :
    (∃ fs, (GetFacts b hostAddrs fc auths).facts = some fs ∧
      ∀ kv ∈ fc, (b.run kv.2).ok = true →
        lookupFact kv.1 fs = some (b.run kv.2).stdout.trim) ∧
    (GetFacts b hostAddrs fc auths).err =
      some (.aggregate conStr
        ((fc.filter fun kv => !(b.run kv.2).ok).map
          fun kv => (kv.1, (b.run kv.2).stderr))) ∧
    ∀ kv ∈ fc,
      lookupFact kv.1
          (formatRow fc
            { inst with facts := (GetFacts b hostAddrs fc auths).facts }).facts =
        some (if (b.run kv.2).ok then (b.run kv.2).stdout.trim else "") := by
  have hkey := getFacts_alloc_ok b hostAddrs fc auths conStr hconn hs hst
  have hw := waitPhase_eq b fc
  have hfemp : (waitPhase b fc).2.isEmpty = false := by
    rw [hw]
    obtain ⟨kv, hkv, hko⟩ := hfail
    have : kv ∈ fc.filter fun kv => !(b.run kv.2).ok :=
      List.mem_filter.mpr ⟨hkv, by simp [hko]⟩
    cases hfl : fc.filter fun kv => !(b.run kv.2).ok with
    | nil => rw [hfl] at this; simp at this
    | cons x xs => simp [hfl]
  have hlk : ∀ k : String, lookupFact k (waitPhase b fc).1 =
      (lookupFact k fc).bind fun c =>
        if (b.run c).ok then some (b.run c).stdout.trim else none :=
    waitPhase_facts_lookup b fc hnodup
  refine ⟨⟨(waitPhase b fc).1, by rw [hkey], fun kv hkv hok => ?_⟩, ?_, fun kv hkv => ?_⟩
  · rw [hlk kv.1, lookupFact_of_mem hnodup (by simpa using hkv)]
    simp [hok]
  · rw [hkey]
    simp only [hfemp, Bool.false_eq_true, if_false]
    rw [hw]
  · rw [hkey]
    simp only [formatRow]
    rw [lookupFact_map_keyed (fun k => (lookupFact k (waitPhase b fc).1).getD "") fc kv.1]
    have hmem : kv.1 ∈ fc.map Prod.fst := by
      simpa using List.mem_map_of_mem Prod.fst hkv
    rw [if_pos hmem, hlk kv.1, lookupFact_of_mem hnodup (by simpa using hkv)]
    by_cases hok : (b.run kv.2).ok = true
    · simp [hok]
    · simp only [Bool.not_eq_true] at hok
      simp [hok]

theorem getFacts_partial_failure_witness :
    (negotiate demoBackend.dial ["10.0.0.1"] demoAuths).1 =
        .ok ("ec2-user" ++ "@" ++ "10.0.0.1") ∧
    ((([("kernel", "uname -rs"), ("host", "hostname")] : List (String × String)).map
        Prod.fst).Nodup) ∧
    (∃ kv ∈ ([("kernel", "uname -rs"), ("host", "hostname")] : List (String × String)),
        (demoBackend.run kv.2).ok = false) ∧
    (GetFacts demoBackend ["10.0.0.1"] [("kernel", "uname -rs"), ("host", "hostname")]
        demoAuths).err =
      some (.aggregate ("ec2-user" ++ "@" ++ "10.0.0.1")
        ((([("kernel", "uname -rs"), ("host", "hostname")] :
            List (String × String)).filter
          fun kv => !(demoBackend.run kv.2).ok).map
            fun kv => (kv.1, (demoBackend.run kv.2).stderr))) :=
  ⟨by decide, by decide, by decide,
    (getFacts_partial_failure demoBackend ["10.0.0.1"]
      [("kernel", "uname -rs"), ("host", "hostname")] demoAuths
      ("ec2-user" ++ "@" ++ "10.0.0.1") demoInstance (by decide)
      (by decide) (by decide) (by decide) (by decide)).2.1⟩

/-! ## Orchestrator lemmas -/

/-- Writing a target's outcome twice is the same as writing it once:
`GetFacts` reads only the (never-written) `addrs` field. -/
theorem processFact_idem (b : SshBackend) (fc : List (String × String))
    (auths : List ClientConfig) (inst : InstanceInfo) :
    processFact b fc auths (processFact b fc auths inst) =
      processFact b fc auths inst := rfl

theorem runScheduled_apply {α ι : Type} [DecidableEq ι] (step : α → α)
    (hidem : ∀ x, step (step x) = step x) (sched : List ι) (f : ι → α) (j : ι) :
    runScheduled step sched f j = if j ∈ sched then step (f j) else f j := by
  induction sched generalizing f with
  | nil => simp [runScheduled]
  | cons i rest ih =>
    have hstep : runScheduled step (i :: rest) f =
        runScheduled step rest (Function.update f i (step (f i))) := rfl
    rw [hstep, ih]
    by_cases hji : j = i
    · subst hji
      by_cases hjr : j ∈ rest
      · simp [hjr, Function.update_same, hidem]
      · simp [hjr, Function.update_same]
    · by_cases hjr : j ∈ rest
      · simp [hjr, hji, Function.update_noteq hji]
      · simp [hjr, hji, Function.update_noteq hji]

/-- Any completion order that lets every target finish produces the same
final table: each row is the aggregation of its own target's pipeline. -/
theorem worker_rows (b : SshBackend) (fc : List (String × String))
    (auths : List ClientConfig) (insts : List InstanceInfo)
    (sched : List (Fin insts.length)) (hcover : ∀ j : Fin insts.length, j ∈ sched) :
    Worker b fc auths insts sched =
      insts.map fun inst => formatRow fc (processFact b fc auths inst) := by
  unfold Worker formatResult
  have hfun : runScheduled (processFact b fc auths) sched insts.get =
      fun j => processFact b fc auths (insts.get j) := by
    funext j
    rw [runScheduled_apply (processFact b fc auths)
      (processFact_idem b fc auths) sched insts.get j]
    simp [hcover j]
  rw [hfun]
  have hofn : (List.ofFn fun j => processFact b fc auths (insts.get j)) =
      insts.map (processFact b fc auths) := by
    show List.ofFn ((processFact b fc auths) ∘ insts.get) = _
    rw [← List.map_ofFn, List.ofFn_get]
  rw [hofn, List.map_map]
  rfl

/-- C8: the final table contains exactly one row per input target, in the
input order, regardless of the order in which the target pipelines
complete (any covering schedule gives the same table). -/
theorem worker_one_row_per_target (b : SshBackend) (fc : List (String × String))
    (auths : List ClientConfig) (insts : List InstanceInfo)
    (sched : List (Fin insts.length)) (hcover : ∀ j : Fin insts.length, j ∈ sched) :
    Worker b fc auths insts sched =
      (insts.map fun inst => formatRow fc (processFact b fc auths inst)) ∧
    (Worker b fc auths insts sched).length = insts.length := by
  have h := worker_rows b fc auths insts sched hcover
  exact ⟨h, by rw [h, List.length_map]⟩

theorem worker_one_row_per_target_witness :
    Worker demoBackend [("kernel", "uname -rs")] demoAuths [demoInstance]
        [(0 : Fin 1)] =
      ([demoInstance].map fun inst =>
        formatRow [("kernel", "uname -rs")]
          (processFact demoBackend [("kernel", "uname -rs")] demoAuths inst)) ∧
    (Worker demoBackend [("kernel", "uname -rs")] demoAuths [demoInstance]
        [(0 : Fin 1)]).length = [demoInstance].length :=
  worker_one_row_per_target demoBackend [("kernel", "uname -rs")] demoAuths
    [demoInstance] [(0 : Fin 1)] (by decide)

/-- C1 counterexample: a target whose connection failed (nil facts map)
gets a row with NO fact entries at all — `formatResult` fills the label
columns only under `if inst.facts != nil` — instead of a row carrying
every CommandSpec label with the default value: the label `"kernel"` is
absent (`none`), not defaulted (`some ""`). -/
theorem row_labels_counterexample :
    (formatRow [("kernel", "uname -rs")]
        { description := ⟨some "i-1", [], none, none⟩, addrs := [],
          facts := none, err := some .noHosts }).facts = [] ∧
    lookupFact "kernel"
        (formatRow [("kernel", "uname -rs")]
          { description := ⟨some "i-1", [], none, none⟩, addrs := [],
            facts := none, err := some .noHosts }).facts = none := by
  decide

/-- C1 (amended): for a target whose facts map is non-nil, the row carries
an entry for every CommandSpec label — the collected value if present,
else the default `""`; but for a target whose facts map is nil (connection
failed), the row's fact map is empty: labels are omitted, not defaulted. -/
theorem row_labels_amended (fc : List (String × String)) (inst : InstanceInfo) :
    (∀ fs, inst.facts = some fs →
      ∀ kv ∈ fc, lookupFact kv.1 (formatRow fc inst).facts =
        some ((lookupFact kv.1 fs).getD "")) ∧
    (inst.facts = none → (formatRow fc inst).facts = []) := by
  constructor
  · intro fs hfs kv hkv
    have hrow : (formatRow fc inst).facts =
        fc.map fun kv => (kv.1, (lookupFact kv.1 fs).getD "") := by
      simp [formatRow, hfs]
    rw [hrow,
      lookupFact_map_keyed (fun k => (lookupFact k fs).getD "") fc kv.1,
      if_pos (by simpa using List.mem_map_of_mem Prod.fst hkv)]
  · intro h
    simp [formatRow, h]

theorem row_labels_amended_witness :
    lookupFact "kernel"
        (formatRow [("kernel", "uname -rs")]
          { demoInstance with facts := some [("kernel", "Linux")] }).facts =
      some ((lookupFact "kernel" [("kernel", "Linux")]).getD "") :=
  (row_labels_amended [("kernel", "uname -rs")]
      { demoInstance with facts := some [("kernel", "Linux")] }).1
    [("kernel", "Linux")] rfl ("kernel", "uname -rs") (by decide)

/-- C4: a `NewSession` refusal (remote resource exhaustion) on a live
connection is fatal for that target alone: the remaining commands are
abandoned (the result does not depend on what follows the failing
command), `GetFacts` returns immediately with that error and a nil facts
map — nothing had been collected, since collection only starts after all
sessions are allocated — the negotiated connection is still closed
(deferred close), and the job still yields one row for every target. -/
theorem getFacts_session_exhaustion (b : SshBackend) (hostAddrs : List String)
    (auths : List ClientConfig) (conStr : String)
    (pre : List (String × String)) (kv : String × String)
    (post : List (String × String))
    (hconn : (negotiate b.dial hostAddrs auths).1 = .ok conStr)
    (hs : ∀ i < pre.length, b.newSession i = true)
    (hst : ∀ p ∈ pre, b.startOk p.2 = true)
    (hfail : b.newSession pre.length = false) :
    GetFacts b hostAddrs (pre ++ kv :: post) auths =
      ⟨none, some (.sessionAlloc conStr),
        (negotiate b.dial hostAddrs auths).2, true⟩ ∧
    GetFacts b hostAddrs (pre ++ kv :: post) auths =
      GetFacts b hostAddrs (pre ++ kv :: []) auths ∧
    ∀ (insts : List InstanceInfo) (sched : List (Fin insts.length)),
      (∀ j, j ∈ sched) →
      (Worker b (pre ++ kv :: post) auths insts sched).length = insts.length := by
  have key : ∀ post' : List (String × String),
      GetFacts b hostAddrs (pre ++ kv :: post') auths =
        ⟨none, some (.sessionAlloc conStr),
          (negotiate b.dial hostAddrs auths).2, true⟩ := by
    intro post'
    simp only [GetFacts]
    rw [hconn]
    dsimp only
    rw [allocSessions_newSession_fail b conStr pre kv post' 0
      (fun i hi => by simpa using hs i hi) hst (by simpa using hfail)]
  refine ⟨key post, by rw [key post, key []], fun insts sched hcover => ?_⟩
  rw [worker_rows b (pre ++ kv :: post) auths insts sched hcover, List.length_map]

theorem getFacts_session_exhaustion_witness :
    (negotiate exhaustedBackend.dial ["10.0.0.1"] demoAuths).1 =
        .ok ("centos" ++ "@" ++ "10.0.0.1") ∧
    exhaustedBackend.newSession [("kernel", "uname -rs")].length = false ∧
    GetFacts exhaustedBackend ["10.0.0.1"]
        ([("kernel", "uname -rs")] ++ ("host", "hostname") :: [("rel", "cat x")])
        demoAuths =
      ⟨none, some (.sessionAlloc ("centos" ++ "@" ++ "10.0.0.1")),
        (negotiate exhaustedBackend.dial ["10.0.0.1"] demoAuths).2, true⟩ :=
  ⟨by decide, by decide,
    (getFacts_session_exhaustion exhaustedBackend ["10.0.0.1"] demoAuths
      ("centos" ++ "@" ++ "10.0.0.1") [("kernel", "uname -rs")]
      ("host", "hostname") [("rel", "cat x")] (by decide) (by decide)
      (by decide) (by decide)).1⟩

/-! ## Determinism across Go-map iteration orders (C10) -/

theorem getFacts_facts_of_conn_error (b : SshBackend) (hostAddrs : List String)
    (fc : List (String × String)) (auths : List ClientConfig) (e : GoErr)
    (hng : (negotiate b.dial hostAddrs auths).1 = .error e) :
    (GetFacts b hostAddrs fc auths).facts = none := by
  simp only [GetFacts]
  rw [hng]

theorem getFacts_facts_of_alloc_error (b : SshBackend) (hostAddrs : List String)
    (fc : List (String × String)) (auths : List ClientConfig)
    (conStr : String) (e : GoErr)
    (hconn : (negotiate b.dial hostAddrs auths).1 = .ok conStr)
    (heq : allocSessions b conStr fc 0 = .error e) :
    (GetFacts b hostAddrs fc auths).facts = none := by
  simp only [GetFacts]
  rw [hconn]
  dsimp only
  rw [heq]

theorem getFacts_facts_of_alloc_ok (b : SshBackend) (hostAddrs : List String)
    (fc : List (String × String)) (auths : List ClientConfig) (conStr : String)
    (hconn : (negotiate b.dial hostAddrs auths).1 = .ok conStr)
    (heq : allocSessions b conStr fc 0 = .ok fc) :
    (GetFacts b hostAddrs fc auths).facts = some (waitPhase b fc).1 := by
  simp only [GetFacts]
  rw [hconn]
  dsimp only
  rw [heq]
  dsimp only
  by_cases hemp : (waitPhase b fc).2.isEmpty = true
  · simp [hemp]
  · simp [hemp]

/-- The facts map produced by `GetFacts` does not depend on the Go-map
iteration order of the command spec: for any permutation, either both
runs return a nil map, or both return maps with identical lookups. -/
theorem getFacts_facts_perm (b : SshBackend) (hostAddrs : List String)
    (auths : List ClientConfig) (fc₁ fc₂ : List (String × String))
    (hperm : fc₁.Perm fc₂) (hnodup : (fc₁.map Prod.fst).Nodup) :
    ((GetFacts b hostAddrs fc₁ auths).facts = none ∧
      (GetFacts b hostAddrs fc₂ auths).facts = none) ∨
    (∃ fs₁ fs₂, (GetFacts b hostAddrs fc₁ auths).facts = some fs₁ ∧
      (GetFacts b hostAddrs fc₂ auths).facts = some fs₂ ∧
      ∀ k, lookupFact k fs₁ = lookupFact k fs₂) := by
  have hnodup₂ : (fc₂.map Prod.fst).Nodup :=
    ((hperm.map Prod.fst).nodup_iff).mp hnodup
  cases hng : (negotiate b.dial hostAddrs auths).1 with
  | error e =>
    exact Or.inl ⟨getFacts_facts_of_conn_error b hostAddrs fc₁ auths e hng,
      getFacts_facts_of_conn_error b hostAddrs fc₂ auths e hng⟩
  | ok conStr =>
    rcases allocSessions_spec b conStr fc₁ 0 with ⟨⟨hA, hB⟩, heq₁⟩ | ⟨hneg, e₁, heq₁⟩
    · have heq₂ : allocSessions b conStr fc₂ 0 = .ok fc₂ := by
        refine allocSessions_ok b conStr fc₂ 0 (fun i hi => ?_)
          (fun kv h => hB kv (hperm.mem_iff.mpr h))
        exact hA i (by rw [hperm.length_eq]; exact hi)
      refine Or.inr ⟨(waitPhase b fc₁).1, (waitPhase b fc₂).1,
        getFacts_facts_of_alloc_ok b hostAddrs fc₁ auths conStr hng heq₁,
        getFacts_facts_of_alloc_ok b hostAddrs fc₂ auths conStr hng heq₂,
        fun k => ?_⟩
      rw [waitPhase_facts_lookup b fc₁ hnodup k,
        waitPhase_facts_lookup b fc₂ hnodup₂ k,
        lookupFact_perm hperm hnodup k]
    · rcases allocSessions_spec b conStr fc₂ 0 with ⟨⟨hA₂, hB₂⟩, heq₂⟩ | ⟨hneg₂, e₂, heq₂⟩
      · exact absurd ⟨fun i hi => hA₂ i (by rw [← hperm.length_eq]; exact hi),
          fun kv h => hB₂ kv (hperm.mem_iff.mp h)⟩ hneg
      · exact Or.inl
          ⟨getFacts_facts_of_alloc_error b hostAddrs fc₁ auths conStr e₁ hng heq₁,
           getFacts_facts_of_alloc_error b hostAddrs fc₂ auths conStr e₂ hng heq₂⟩

/-- Row equivalence of the two runs for a single target. -/
theorem formatRow_perm_equiv (b : SshBackend) (auths : List ClientConfig)
    (fc₁ fc₂ : List (String × String)) (inst : InstanceInfo)
    (hperm : fc₁.Perm fc₂) (hnodup : (fc₁.map Prod.fst).Nodup) :
    (formatRow fc₁ (processFact b fc₁ auths inst)).instanceId =
        (formatRow fc₂ (processFact b fc₂ auths inst)).instanceId ∧
    (formatRow fc₁ (processFact b fc₁ auths inst)).name =
        (formatRow fc₂ (processFact b fc₂ auths inst)).name ∧
    (formatRow fc₁ (processFact b fc₁ auths inst)).ips =
        (formatRow fc₂ (processFact b fc₂ auths inst)).ips ∧
    ∀ k, lookupFact k (formatRow fc₁ (processFact b fc₁ auths inst)).facts =
        lookupFact k (formatRow fc₂ (processFact b fc₂ auths inst)).facts := by
  refine ⟨rfl, rfl, rfl, fun k => ?_⟩
  rcases getFacts_facts_perm b inst.addrs auths fc₁ fc₂ hperm hnodup with
    ⟨h1, h2⟩ | ⟨fs₁, fs₂, h1, h2, hlk⟩
  · have hr1 : (formatRow fc₁ (processFact b fc₁ auths inst)).facts = [] := by
      simp [formatRow, processFact, h1]
    have hr2 : (formatRow fc₂ (processFact b fc₂ auths inst)).facts = [] := by
      simp [formatRow, processFact, h2]
    rw [hr1, hr2]
  · have hr1 : (formatRow fc₁ (processFact b fc₁ auths inst)).facts =
        fc₁.map fun kv => (kv.1, (lookupFact kv.1 fs₁).getD "") := by
      simp [formatRow, processFact, h1]
    have hr2 : (formatRow fc₂ (processFact b fc₂ auths inst)).facts =
        fc₂.map fun kv => (kv.1, (lookupFact kv.1 fs₂).getD "") := by
      simp [formatRow, processFact, h2]
    rw [hr1, hr2,
      lookupFact_map_keyed (fun k' => (lookupFact k' fs₁).getD "") fc₁ k,
      lookupFact_map_keyed (fun k' => (lookupFact k' fs₂).getD "") fc₂ k]
    have hmem : k ∈ fc₁.map Prod.fst ↔ k ∈ fc₂.map Prod.fst :=
      (hperm.map Prod.fst).mem_iff
    by_cases hk : k ∈ fc₁.map Prod.fst
    · rw [if_pos hk, if_pos (hmem.mp hk), hlk k]
    · rw [if_neg hk, if_neg fun h => hk (hmem.mpr h)]

/-- C10: two runs of the executor against the same deterministic backend
with the same addresses, credentials and command spec produce identical
tables: same length, and each row pair agrees on id, name, address list
and (extensionally, as Go maps) the label-to-value mapping — even though
each run may see a different Go-map iteration order (any permutation of
the spec) and a different completion order (any covering schedule). -/
theorem worker_deterministic (b : SshBackend) (auths : List ClientConfig)
    (fc₁ fc₂ : List (String × String)) (insts : List InstanceInfo)
    (sched₁ sched₂ : List (Fin insts.length))
    (hperm : fc₁.Perm fc₂) (hnodup : (fc₁.map Prod.fst).Nodup)
    (hc₁ : ∀ j, j ∈ sched₁) (hc₂ : ∀ j, j ∈ sched₂) :
    (Worker b fc₁ auths insts sched₁).length =
        (Worker b fc₂ auths insts sched₂).length ∧
    ∀ (j : Nat) (r₁ r₂ : ResRow),
      (Worker b fc₁ auths insts sched₁).get? j = some r₁ →
      (Worker b fc₂ auths insts sched₂).get? j = some r₂ →
      r₁.instanceId = r₂.instanceId ∧ r₁.name = r₂.name ∧ r₁.ips = r₂.ips ∧
      ∀ k, lookupFact k r₁.facts = lookupFact k r₂.facts := by
  rw [worker_rows b fc₁ auths insts sched₁ hc₁,
    worker_rows b fc₂ auths insts sched₂ hc₂]
  refine ⟨by simp, fun j r₁ r₂ h₁ h₂ => ?_⟩
  rw [List.get?_map] at h₁ h₂
  cases hj : insts.get? j with
  | none => rw [hj] at h₁; simp at h₁
  | some inst =>
    rw [hj] at h₁ h₂
    simp only [Option.map_some'] at h₁ h₂
    obtain rfl : r₁ = formatRow fc₁ (processFact b fc₁ auths inst) := by
      injection h₁ with h; exact h.symm
    obtain rfl : r₂ = formatRow fc₂ (processFact b fc₂ auths inst) := by
      injection h₂ with h; exact h.symm
    exact formatRow_perm_equiv b auths fc₁ fc₂ inst hperm hnodup

theorem worker_deterministic_witness :
    (([("kernel", "uname -rs"), ("host", "hostname")] : List (String × String)).Perm
        [("host", "hostname"), ("kernel", "uname -rs")]) ∧
    (Worker demoBackend [("kernel", "uname -rs"), ("host", "hostname")] demoAuths
        [demoInstance] [(0 : Fin 1)]).length =
      (Worker demoBackend [("host", "hostname"), ("kernel", "uname -rs")] demoAuths
        [demoInstance] [(0 : Fin 1)]).length :=
  ⟨List.Perm.swap _ _ _,
    (worker_deterministic demoBackend demoAuths
      [("kernel", "uname -rs"), ("host", "hostname")]
      [("host", "hostname"), ("kernel", "uname -rs")]
      [demoInstance] [(0 : Fin 1)] [(0 : Fin 1)]
      (List.Perm.swap _ _ _) (by decide) (by decide) (by decide)).1⟩

/-! ## The admission gate bounds concurrency (C7) -/

theorem activeCount_update_active (n : Nat) (s : Fin n → Phase) (i : Fin n)
    (h : s i ≠ Phase.active) :
    activeCount n (Function.update s i Phase.active) = activeCount n s + 1 := by
  unfold activeCount
  have hset : (Finset.univ.filter
        fun j => Function.update s i Phase.active j = Phase.active) =
      insert i (Finset.univ.filter fun j => s j = Phase.active) := by
    ext j
    by_cases hj : j = i
    · subst hj
      simp [Function.update_same]
    · simp [Function.update_noteq hj, hj]
  rw [hset, Finset.card_insert_of_not_mem (by simp [h])]

theorem activeCount_update_finished (n : Nat) (s : Fin n → Phase) (i : Fin n)
    (h : s i = Phase.active) :
    activeCount n (Function.update s i Phase.finished) + 1 = activeCount n s := by
  unfold activeCount
  have hset : (Finset.univ.filter fun j => s j = Phase.active) =
      insert i (Finset.univ.filter
        fun j => Function.update s i Phase.finished j = Phase.active) := by
    ext j
    by_cases hj : j = i
    · subst hj
      simp [h, Function.update_same]
    · simp [Function.update_noteq hj, hj]
  rw [hset, Finset.card_insert_of_not_mem (by simp [Function.update_same])]

/-- C7: in every reachable interleaving, the number of targets
simultaneously in the negotiating/executing phase never exceeds the gate
capacity: a task sends on the `limiter` channel before doing any work —
possible only while the buffer holds fewer than `cap` values — and
receives from it when its pipeline finishes, on success and failure
alike. -/
theorem gate_bounds_concurrency (cap n : Nat) (s : Fin n → Phase)
    (hreach : GateReachable cap s) : activeCount n s ≤ cap := by
  unfold GateReachable at hreach
  induction hreach with
  | refl => simp [activeCount]
  | tail hsteps hstep ih =>
    cases hstep with
    | acquire i hw hlt =>
      rw [activeCount_update_active n _ i (by rw [hw]; simp)]
      omega
    | release i ha =>
      have := activeCount_update_finished n _ i ha
      omega

theorem gate_bounds_concurrency_witness :
    activeCount 10 (fun _ => Phase.waiting) ≤ 2 :=
  gate_bounds_concurrency 2 10 (fun _ => Phase.waiting) Relation.ReflTransGen.refl

end GoRunner
